import Mathlib

/-!
# NBD server of bootimus (`internal/nbd/server.go`)

A shallow embedding of the handshake (`negotiateConnection`) and of the
transmission loop (`handleRequests`, `handleRead`, `sendReply`), together with
the parts of the Go standard library they rely on: `encoding/binary`
(`binary.Write`, `binary.Read`), `io.ReadFull`, `os.File.ReadAt`, `os.Stat`
and `path/filepath.Join`.

Bytes are natural numbers below 256, Go strings are byte lists, and a
connection is the list of bytes the client will still send together with the
list of bytes the server has written so far.
-/

namespace Nbd

/-! ## Constants (server.go, lines 14-30) -/

def NBD_REQUEST_MAGIC : Nat := 0x25609513
def NBD_REPLY_MAGIC : Nat := 0x67446698
def NBD_CMD_READ : Nat := 0
def NBD_CMD_DISC : Nat := 2

def INIT_PASSWD : Nat := 0x4e42444d41474943
def OPTS_MAGIC : Nat := 0x49484156454F5054
def NBD_OPT_EXPORT : Nat := 1
def NBD_REP_ACK : Nat := 1
def NBD_REP_SERVER : Nat := 2

def NBD_FLAG_FIXED_NEWSTYLE : Nat := 1
def NBD_FLAG_NO_ZEROES : Nat := 2
def NBD_FLAG_C_FIXED_NEWSTYLE : Nat := 1
/-- The errors that the modelled code can return. -/
inductive Err where
  /-- `io.EOF`. -/
  | EOF
  /-- `io.ErrUnexpectedEOF`. -/
  | ErrUnexpectedEOF
  /-- The transport refused a write. -/
  | writeFailed
  /-- The error of `binary.Write` for a value whose type has no fixed size. -/
  | notFixedSize
  /-- The error of `ReadAt` for a negative offset. -/
  | negativeOffset
  /-- The error `EINVAL` of `pread` for a range that ends at `2 ^ 63` or
  beyond. -/
  | invalidArgument
  /-- The error of `ReadAt` on a directory. -/
  | isDirectory
  /-- The text is "invalid option magic". -/
  | invalidOptionMagic
  /-- The text is "ISO not found". -/
  | isoNotFound
  /-- The text is "invalid request magic". -/
  | invalidRequestMagic
  /-- The loop model ran out of iterations; `handleRequests` never returns it. -/
  | fuel
  deriving DecidableEq, Repr

/-- A `net.Conn`: `inp` is what the client sends before closing its side, `out`
is what the server has written, `accepts` tells whether the transport accepts
writes. -/
structure Conn where
  inp : List Nat
  out : List Nat
  accepts : Bool
  deriving DecidableEq, Repr

/-- Outcome of an operation on a connection: a value or an error, with the
connection as the operation left it. -/
inductive Res (α : Type) where
  | ok (a : α) (c : Conn)
  | err (e : Err) (c : Conn)
  deriving DecidableEq, Repr

/-- An operation on a connection. -/
def Op (α : Type) : Type := Conn → Res α

/-- Sequencing of operations: an error ends the sequence (`return err`). -/
def Op.bind {α β : Type} (m : Op α) (f : α → Op β) : Op β := fun c =>
  match m c with
  | .ok a c1 => f a c1
  | .err e c1 => .err e c1

instance : Monad Op where
  pure a := fun c => .ok a c
  bind := Op.bind

/-- Returning an error. -/
def fail {α : Type} (e : Err) : Op α := fun c => .err e c

/-! ## `encoding/binary` and `io` -/

/-- The `n` bytes of `v` in big-endian order (`binary.BigEndian.PutUintN`);
the value is truncated to `n` bytes. -/
def bigEndian : Nat → Nat → List Nat
  | 0, _ => []
  | n + 1, v => (v / 256 ^ n) % 256 :: bigEndian n v

/-- The number whose big-endian bytes are `bs` (`binary.BigEndian.UintN`). -/
def fromBigEndian (bs : List Nat) : Nat :=
  bs.foldl (fun acc b => acc * 256 + b) 0

/-- The Go types of the values handed to `binary.Write` in this program. An
untyped integer constant stored in an interface has type `int`. -/
inductive GoType where
  | int
  | uint16
  | uint32
  | uint64
  deriving DecidableEq, Repr

/-- The `sizeof` of `encoding/binary`: the encoded size of a type, and none
for `int`, which has no fixed size. -/
def sizeof : GoType → Option Nat
  | .int => none
  | .uint16 => some 2
  | .uint32 => some 4
  | .uint64 => some 8

/-- A value handed to `binary.Write`: a number of some Go type, or a pointer
to a struct whose fields are numbers. -/
inductive GoValue where
  | scalar (t : GoType) (v : Nat)
  | struct (fields : List (GoType × Nat))
  deriving DecidableEq, Repr

/-- Encoding of the fields of a struct, in order; none when a field has no
fixed size. -/
def encodeFields : List (GoType × Nat) → Option (List Nat)
  | [] => some []
  | (t, v) :: rest =>
    match sizeof t, encodeFields rest with
    | some n, some bs => some (bigEndian n v ++ bs)
    | _, _ => none

/-- The bytes `binary.Write` produces for a value, none when it rejects the
value. -/
def encode : GoValue → Option (List Nat)
  | .scalar t v => encodeFields [(t, v)]
  | .struct fields => encodeFields fields

/-- The method `conn.Write`. -/
def connWrite (bs : List Nat) : Op Unit := fun c =>
  if c.accepts then .ok () { c with out := c.out ++ bs } else .err .writeFailed c

/-- The function `binary.Write(conn, binary.BigEndian, data)`: the size check
comes first, nothing is written when it fails. -/
def binaryWrite (data : GoValue) : Op Unit :=
  match encode data with
  | none => fail .notFixedSize
  | some bs => connWrite bs

/-- The function `io.ReadFull(conn, buf)` for a buffer of `n` bytes. -/
def ReadFull (n : Nat) : Op (List Nat) := fun c =>
  if n = 0 then .ok [] c
  else if c.inp = [] then .err .EOF c
  else if c.inp.length < n then .err .ErrUnexpectedEOF { c with inp := [] }
  else .ok (c.inp.take n) { c with inp := c.inp.drop n }

/-- The function `binary.Read(conn, binary.BigEndian, &x)` for an unsigned
integer `x` of `n` bytes. -/
def binaryRead (n : Nat) : Op Nat := do
  let bs ← ReadFull n
  pure (fromBigEndian bs)

/-! ## Files -/

/-- What a path of the file system refers to: a regular file with its
content, or a directory with the size `os.Stat` reports for it. -/
inductive Node where
  | file (content : List Nat)
  | dir (size : Nat)
  deriving DecidableEq, Repr

/-- The size `os.Stat` reports. -/
def Node.Size : Node → Nat
  | .file content => content.length
  | .dir size => size

/-- The conversion `int64(offset)` of a 64-bit unsigned value. -/
def int64 (u : Nat) : Int :=
  if u % 2 ^ 64 < 2 ^ 63 then (u % 2 ^ 64 : Nat) else (u % 2 ^ 64 : Nat) - 2 ^ 64

/-- The expression `make([]byte, n)`. -/
def make (n : Nat) : List Nat := List.replicate n 0

/-- The method `file.ReadAt(b, off)` on Linux: the buffer after the call, the
number of bytes read and the error. A negative offset is refused; an empty
buffer is filled without a system call; `pread` refuses with `EINVAL` a range
whose end `off + len(b)` does not fit an `int64`, and with `EISDIR` a
directory; fewer bytes than the buffer holds come with `io.EOF`. -/
def ReadAt (f : Node) (b : List Nat) (off : Int) : List Nat × Nat × Option Err :=
  if off < 0 then (b, 0, some .negativeOffset)
  else if b.length = 0 then (b, 0, none)
  else if 2 ^ 63 ≤ off + b.length then (b, 0, some .invalidArgument)
  else
    match f with
    | .dir _ => (b, 0, some .isDirectory)
    | .file content =>
      let got := (content.drop off.toNat).take b.length
      (got ++ b.drop got.length, got.length,
        if got.length < b.length then some .EOF else none)

/-! ## Transmission phase (server.go, lines 181-242) -/

/-- The function `sendReply`: the reply struct, written through
`binary.Write`. -/
def sendReply (handle errCode : Nat) : Op Unit :=
  binaryWrite (.struct [(.uint32, NBD_REPLY_MAGIC), (.uint32, errCode), (.uint64, handle)])

/-- The function `handleRead`. -/
def handleRead (file : Node) (handle offset length : Nat) : Op Unit :=
  let data := make length
  match ReadAt file data (int64 offset) with
  | (data, n, err) =>
    if err ≠ none ∧ err ≠ some Err.EOF then
      sendReply handle 1
    else do
      sendReply handle 0
      connWrite (data.take n)

/-- The request struct of `handleRequests`. -/
structure Request where
  Magic : Nat
  Typ : Nat
  Handle : Nat
  Offset : Nat
  Length : Nat
  deriving DecidableEq, Repr

/-- The call `binary.Read(client.conn, binary.BigEndian, &req)`: one read of
28 bytes (4 + 4 + 8 + 8 + 4), decoded field by field. -/
def readRequest : Op Request := do
  let bs ← ReadFull 28
  pure {
    Magic := fromBigEndian (bs.take 4)
    Typ := fromBigEndian ((bs.drop 4).take 4)
    Handle := fromBigEndian ((bs.drop 8).take 8)
    Offset := fromBigEndian ((bs.drop 16).take 8)
    Length := fromBigEndian ((bs.drop 24).take 4) }

/-- One pass through the body of the `for` loop of `handleRequests`: either
the loop goes round again, or the function returns. -/
inductive Step where
  | next (c : Conn)
  | ret (r : Res Unit)
  deriving DecidableEq, Repr

/-- The body of the `for` loop of `handleRequests`. The error of the
`sendReply` for an unsupported command is dropped, as in the source. -/
def handleRequest (file : Node) (c : Conn) : Step :=
  match readRequest c with
  | .err e c1 => if e = Err.EOF then .ret (.ok () c1) else .ret (.err e c1)
  | .ok req c1 =>
    if req.Magic ≠ NBD_REQUEST_MAGIC then .ret (.err .invalidRequestMagic c1)
    else if req.Typ = NBD_CMD_READ then
      match handleRead file req.Handle req.Offset req.Length c1 with
      | .err e c2 => .ret (.err e c2)
      | .ok _ c2 => .next c2
    else if req.Typ = NBD_CMD_DISC then .ret (.ok () c1)
    else
      match sendReply req.Handle 1 c1 with
      | .err _ c2 => .next c2
      | .ok _ c2 => .next c2

/-- The `for` loop of `handleRequests`, run for at most `k` passes. -/
def handleRequestsLoop : Nat → Node → Conn → Res Unit
  | 0, _, c => .err .fuel c
  | k + 1, file, c =>
    match handleRequest file c with
    | .ret r => r
    | .next c1 => handleRequestsLoop k file c1

/-- The function `handleRequests` on a client with the given open file and
connection. Every pass that goes round again has consumed a 28-byte header,
so `inp.length / 28 + 1` passes are enough (`handleRequests_total`). -/
def handleRequests (file : Node) (c : Conn) : Res Unit :=
  handleRequestsLoop (c.inp.length / 28 + 1) file c

/-! ## `path/filepath` and `os.Stat` -/

/-- The byte of the path separator. -/
def slash : Nat := 47

/-- The path element `.`. -/
def dot : List Nat := [46]

/-- The path element `..`. -/
def dotdot : List Nat := [46, 46]

/-- The bytes of a string literal of ASCII characters. -/
def bytesOf (s : String) : List Nat := s.toList.map Char.toNat

/-- The function `strings.Split(s, "/")`. -/
def splitSlash : List Nat → List (List Nat)
  | [] => [[]]
  | b :: bs =>
    if b = slash then [] :: splitSlash bs
    else
      match splitSlash bs with
      | [] => [[b]]
      | e :: es => (b :: e) :: es

/-- The function `strings.Join(elems, "/")`. -/
def joinSlash : List (List Nat) → List Nat
  | [] => []
  | [e] => e
  | e :: es => e ++ slash :: joinSlash es

/-- What `filepath.Clean` does with one path element; `st` holds the elements
kept so far, the last one first. Empty elements and `.` are skipped, `..`
removes the element before it, is dropped at the root, and is kept at the
start of a relative path. -/
def cleanStep (rooted : Bool) (st : List (List Nat)) (e : List Nat) : List (List Nat) :=
  if e = [] ∨ e = dot then st
  else if e = dotdot then
    match st with
    | top :: below => if top = dotdot then dotdot :: st else below
    | [] => if rooted then [] else [dotdot]
  else e :: st

/-- The elements `filepath.Clean` keeps, the last one first. -/
def cleanStack (path : List Nat) : List (List Nat) :=
  (splitSlash path).foldl (cleanStep (path.head? = some slash)) []

/-- The function `filepath.Clean` (Unix). -/
def Clean (path : List Nat) : List Nat :=
  if path = [] then dot
  else
    let body := joinSlash (cleanStack path).reverse
    if path.head? = some slash then slash :: body
    else if body = [] then dot
    else body

/-- The function `filepath.Join` (Unix): leading empty elements are ignored,
the rest is joined with slashes and cleaned. -/
def Join : List (List Nat) → List Nat
  | [] => []
  | e :: es => if e = [] then Join es else Clean (joinSlash (e :: es))

/-- The file system as `os.Stat` sees it: what each path refers to, if
anything. -/
abbrev FS : Type := List Nat → Option Node

/-! ## Handshake (server.go, lines 108-179) -/

/-- Lines 109-119 of `negotiateConnection`: the greeting. `INIT_PASSWD` and
`OPTS_MAGIC` are untyped constants, so `binary.Write` receives them as `int`;
`flags` is a `uint16`. -/
def negotiateGreeting : Op Unit := do
  binaryWrite (.scalar .int INIT_PASSWD)
  binaryWrite (.scalar .int OPTS_MAGIC)
  let flags := (NBD_FLAG_FIXED_NEWSTYLE ||| NBD_FLAG_NO_ZEROES) % 2 ^ 16
  binaryWrite (.scalar .uint16 flags)

/-- Lines 121-178 of `negotiateConnection`: the client flags, the option
record, the resolution of the export name and the success response. -/
def negotiateExport (isoDir : List Nat) (fs : FS) : Op (List Nat × Nat) := do
  let _clientFlags ← binaryRead 4
  let optMagic ← binaryRead 8
  if optMagic ≠ OPTS_MAGIC then fail .invalidOptionMagic
  else do
    let _optType ← binaryRead 4
    let nameLen ← binaryRead 4
    let nameBuf ← ReadFull nameLen
    let exportName := nameBuf
    let isoPath := Join [isoDir, exportName]
    match fs isoPath with
    | none => fail .isoNotFound
    | some stat => do
      binaryWrite (.scalar .uint64 NBD_REPLY_MAGIC)
      binaryWrite (.scalar .uint32 NBD_OPT_EXPORT)
      binaryWrite (.scalar .uint32 NBD_REP_ACK)
      binaryWrite (.scalar .uint32 0)
      binaryWrite (.scalar .uint64 stat.Size)
      let transmissionFlags := 1
      binaryWrite (.scalar .uint16 transmissionFlags)
      pure (isoPath, stat.Size)

/-- The function `negotiateConnection`: the greeting, then the rest of the
handshake. -/
def negotiateConnection (isoDir : List Nat) (fs : FS) : Op (List Nat × Nat) := do
  negotiateGreeting
  negotiateExport isoDir fs

/-- The function `handleClient` (lines 76-106): the connection as it is when
the function returns. After a failed negotiation, or when `os.Open` finds
nothing at the path, `handleRequests` is not run. -/
def handleClient (isoDir : List Nat) (fs : FS) (c : Conn) : Conn :=
  match negotiateConnection isoDir fs c with
  | .err _ c1 => c1
  | .ok (isoPath, _) c1 =>
    match fs isoPath with
    | none => c1
    | some file =>
      match handleRequests file c1 with
      | .ok _ c2 => c2
      | .err _ c2 => c2

/-! ## The bytes of requests and replies on the wire -/

/-- The 28 bytes of a request header as the client sends it: request magic,
command type, handle, offset, length, all big-endian. -/
def requestBytes (typ handle offset length : Nat) : List Nat :=
  bigEndian 4 NBD_REQUEST_MAGIC ++ bigEndian 4 typ ++ bigEndian 8 handle ++
    bigEndian 8 offset ++ bigEndian 4 length

/-- The 16 bytes of a reply header: reply magic, error code, handle, all
big-endian. -/
def replyBytes (errCode handle : Nat) : List Nat :=
  bigEndian 4 NBD_REPLY_MAGIC ++ bigEndian 4 errCode ++ bigEndian 8 handle

/-- The bytes of the client in the handshake: its 32-bit flags and one
option record (option magic, option type, length of the payload, payload). -/
def optionBytes (clientFlags optType : Nat) (name : List Nat) : List Nat :=
  bigEndian 4 clientFlags ++ bigEndian 8 OPTS_MAGIC ++ bigEndian 4 optType ++
    bigEndian 4 name.length ++ name

/-- The 30 bytes of the success response for an export of `size` bytes, as
lines 156-176 write them: the reply magic as a `uint64`, the option type
`NBD_OPT_EXPORT`, the reply type `NBD_REP_ACK`, the length 0, the export size
and the transmission flags 1. -/
def successBytes (size : Nat) : List Nat :=
  bigEndian 8 NBD_REPLY_MAGIC ++ bigEndian 4 NBD_OPT_EXPORT ++ bigEndian 4 NBD_REP_ACK ++
    bigEndian 4 0 ++ bigEndian 8 size ++ bigEndian 2 1

/-! ## Lying beneath a directory -/

/-- The elements of a path: what stands between its slashes, the empty
elements and `.` left out. -/
def pathElems (p : List Nat) : List (List Nat) :=
  (splitSlash p).filter (fun e => e ≠ [] ∧ e ≠ dot)

/-- The path `p` lies beneath the directory `root` (or is `root` itself): both
are absolute or both relative, the elements of the cleaned `root` start `p`,
and no `..` follows them. -/
def beneath (root p : List Nat) : Prop :=
  (root.head? = some slash ↔ p.head? = some slash) ∧
    pathElems (Clean root) <+: pathElems p ∧
    dotdot ∉ (pathElems p).drop (pathElems (Clean root)).length

instance (root p : List Nat) : Decidable (beneath root p) := by
  unfold beneath
  infer_instance

/-- An element that `filepath.Clean` keeps: not empty, not `.`, without a
slash. -/
def Kept (e : List Nat) : Prop := e ≠ [] ∧ e ≠ dot ∧ slash ∉ e

/-! ## A concrete export directory -/

/-- The content of `disk.iso`: 4096 bytes counting up. -/
def diskIso : List Nat := (List.range 4096).map (fun k => k % 256)

/-- A file system with the export directory `/srv/isos`, the image
`/srv/isos/disk.iso` in it, and a file `/srv/secret.img` outside it. -/
def exampleFS : FS := fun p =>
  if p = bytesOf "/srv/isos/disk.iso" then some (.file diskIso)
  else if p = bytesOf "/srv/isos" then some (.dir 4096)
  else if p = bytesOf "/srv/secret.img" then some (.file [1, 2, 3])
  else none

/-! ## Lemmas on sequencing -/

theorem bind_apply {α β : Type} (m : Op α) (f : α → Op β) (c : Conn) :
    (m >>= f) c = match m c with
      | .ok a c1 => f a c1
      | .err e c1 => .err e c1 := rfl

theorem pure_apply {α : Type} (a : α) (c : Conn) : (pure a : Op α) c = .ok a c := rfl

theorem bind_ok {α β : Type} {m : Op α} {c c1 : Conn} {a : α} (f : α → Op β)
    (h : m c = .ok a c1) : (m >>= f) c = f a c1 := by
  rw [bind_apply, h]

theorem bind_err {α β : Type} {m : Op α} {c c1 : Conn} {e : Err} (f : α → Op β)
    (h : m c = .err e c1) : (m >>= f) c = .err e c1 := by
  rw [bind_apply, h]

/-! ## Lemmas on the encoding -/

theorem bigEndian_length (n v : Nat) : (bigEndian n v).length = n := by
  induction n with
  | zero => rfl
  | succ n ih => simp [bigEndian, ih]

theorem foldl_bigEndian (n v a : Nat) :
    (bigEndian n v).foldl (fun acc b => acc * 256 + b) a = a * 256 ^ n + v % 256 ^ n := by
  induction n generalizing a with
  | zero => simp [bigEndian, Nat.mod_one]
  | succ n ih =>
    simp only [bigEndian, List.foldl_cons, ih]
    rw [Nat.mod_pow_succ]
    ring

theorem fromBigEndian_bigEndian (n v : Nat) :
    fromBigEndian (bigEndian n v) = v % 256 ^ n := by
  simp [fromBigEndian, foldl_bigEndian]

theorem take_bigEndian_append (n v : Nat) (xs : List Nat) :
    (bigEndian n v ++ xs).take n = bigEndian n v :=
  List.take_left' (bigEndian_length n v)

theorem drop_bigEndian_append (n v : Nat) (xs : List Nat) :
    (bigEndian n v ++ xs).drop n = xs :=
  List.drop_left' (bigEndian_length n v)

theorem requestBytes_length (t h o l : Nat) : (requestBytes t h o l).length = 28 := by
  simp [requestBytes, bigEndian_length]

theorem replyBytes_length (e h : Nat) : (replyBytes e h).length = 16 := by
  simp [replyBytes, bigEndian_length]

/-- Reading a request header that the client encoded gives back its fields
and leaves the rest of the input. -/
theorem readRequest_requestBytes (t h o l : Nat) (rest out : List Nat) (a : Bool) :
    readRequest ⟨requestBytes t h o l ++ rest, out, a⟩ =
      .ok ⟨NBD_REQUEST_MAGIC, t % 2 ^ 32, h % 2 ^ 64, o % 2 ^ 64, l % 2 ^ 32⟩ ⟨rest, out, a⟩ := by
  have hlen : (requestBytes t h o l).length = 28 := requestBytes_length t h o l
  have hne : requestBytes t h o l ++ rest ≠ [] := by
    intro h0
    have := congrArg List.length h0
    simp [hlen] at this
  have htake : (requestBytes t h o l ++ rest).take 28 = requestBytes t h o l :=
    List.take_left' hlen
  have hdrop : (requestBytes t h o l ++ rest).drop 28 = rest := List.drop_left' hlen
  have hread : ReadFull 28 ⟨requestBytes t h o l ++ rest, out, a⟩ =
      .ok (requestBytes t h o l) ⟨rest, out, a⟩ := by
    simp [ReadFull, hne, hlen, htake, hdrop]
  have h4 : ∀ (v : Nat) (xs : List Nat), (bigEndian 4 v ++ xs).take 4 = bigEndian 4 v :=
    take_bigEndian_append 4
  have h8 : ∀ (v : Nat) (xs : List Nat), (bigEndian 8 v ++ xs).take 8 = bigEndian 8 v :=
    take_bigEndian_append 8
  have d4 : ∀ (v : Nat) (xs : List Nat), (bigEndian 4 v ++ xs).drop 4 = xs :=
    drop_bigEndian_append 4
  have e1 : (requestBytes t h o l).take 4 = bigEndian 4 NBD_REQUEST_MAGIC := by
    simp only [requestBytes, List.append_assoc, h4]
  have e2 : ((requestBytes t h o l).drop 4).take 4 = bigEndian 4 t := by
    simp only [requestBytes, List.append_assoc, d4, h4]
  have hd8 : (requestBytes t h o l).drop 8 =
      bigEndian 8 h ++ (bigEndian 8 o ++ bigEndian 4 l) := by
    have : (requestBytes t h o l).drop 8 = ((requestBytes t h o l).drop 4).drop 4 := by
      rw [List.drop_drop]
    rw [this]
    simp only [requestBytes, List.append_assoc, d4]
  have hd16 : (requestBytes t h o l).drop 16 = bigEndian 8 o ++ bigEndian 4 l := by
    have : (requestBytes t h o l).drop 16 = ((requestBytes t h o l).drop 8).drop 8 := by
      rw [List.drop_drop]
    rw [this, hd8, drop_bigEndian_append]
  have hd24 : (requestBytes t h o l).drop 24 = bigEndian 4 l := by
    have : (requestBytes t h o l).drop 24 = ((requestBytes t h o l).drop 16).drop 8 := by
      rw [List.drop_drop]
    rw [this, hd16, drop_bigEndian_append]
  have e5 : ((requestBytes t h o l).drop 24).take 4 = bigEndian 4 l := by
    rw [hd24]
    exact List.take_of_length_le (by simp [bigEndian_length])
  unfold readRequest
  rw [bind_ok _ hread, pure_apply]
  rw [e1, e2, hd8, hd16, e5, h8, h8]
  simp only [fromBigEndian_bigEndian]
  have m : NBD_REQUEST_MAGIC % 256 ^ 4 = NBD_REQUEST_MAGIC := by decide
  rw [m]
  norm_num

/-! ## Lemmas on the transmission phase -/

theorem connWrite_accepts (bs i out : List Nat) :
    connWrite bs ⟨i, out, true⟩ = .ok () ⟨i, out ++ bs, true⟩ := rfl

theorem sendReply_accepts (h e : Nat) (i out : List Nat) :
    sendReply h e ⟨i, out, true⟩ = .ok () ⟨i, out ++ replyBytes e h, true⟩ := by
  simp [sendReply, binaryWrite, encode, encodeFields, sizeof, connWrite, replyBytes]

theorem int64_of_lt {o : Nat} (ho : o < 2 ^ 63) : int64 o = (o : Int) := by
  have h1 : o % 2 ^ 64 = o := Nat.mod_eq_of_lt (by omega)
  unfold int64
  rw [h1, if_pos ho]

/-- Reading a range that ends below `2 ^ 63` from a regular file gives the
bytes the file has in the range, with `io.EOF` when they are fewer than
asked for. -/
theorem ReadAt_file (F : List Nat) (o l : Nat) (hsum : o + l < 2 ^ 63) :
    ReadAt (.file F) (make l) (int64 o) =
      ((F.drop o).take l ++ (make l).drop ((F.drop o).take l).length,
        ((F.drop o).take l).length,
        if ((F.drop o).take l).length < l then some Err.EOF else none) := by
  have ho : o < 2 ^ 63 := by omega
  have hoff : ¬ (int64 o < 0) := by
    rw [int64_of_lt ho]
    omega
  have hnat : (int64 o).toNat = o := by
    rw [int64_of_lt ho]
    rfl
  have hs : ¬ ((2 : Int) ^ 63 ≤ int64 o + ((make l).length : Nat)) := by
    rw [int64_of_lt ho, make, List.length_replicate]
    have : ((o + l : Nat) : Int) < 2 ^ 63 := by exact_mod_cast hsum
    push_cast at this
    omega
  unfold ReadAt
  rw [if_neg hoff]
  by_cases hl : l = 0
  · subst hl
    simp [make]
  · have hl2 : ¬ ((make l).length = 0) := by simpa [make] using hl
    rw [if_neg hl2, if_neg hs]
    simp only [hnat, make, List.length_replicate]

/-- A read of a range that ends below `2 ^ 63` is answered with error code 0
and the bytes of the file from the offset on, as many as the file has, at
most `l`. -/
theorem handleRead_file (F : List Nat) (h o l : Nat) (i out : List Nat)
    (hsum : o + l < 2 ^ 63) :
    handleRead (.file F) h o l ⟨i, out, true⟩ =
      .ok () ⟨i, out ++ replyBytes 0 h ++ (F.drop o).take l, true⟩ := by
  unfold handleRead
  simp only [ReadAt_file F o l hsum]
  have hc : ¬ ((if ((F.drop o).take l).length < l then some Err.EOF else none) ≠ none ∧
      (if ((F.drop o).take l).length < l then some Err.EOF else none) ≠ some Err.EOF) := by
    split <;> simp
  rw [if_neg hc]
  rw [bind_ok _ (sendReply_accepts h 0 i out)]
  rw [List.take_left' rfl]
  rfl

theorem handleRequests_ret {file : Node} {c : Conn} {r : Res Unit}
    (h : handleRequest file c = .ret r) : handleRequests file c = r := by
  simp [handleRequests, handleRequestsLoop, h]

theorem handleRequests_next {file : Node} {hdr rest out out1 : List Nat} {a a1 : Bool}
    (hlen : hdr.length = 28)
    (h : handleRequest file ⟨hdr ++ rest, out, a⟩ = .next ⟨rest, out1, a1⟩) :
    handleRequests file ⟨hdr ++ rest, out, a⟩ = handleRequests file ⟨rest, out1, a1⟩ := by
  have hk : (hdr ++ rest).length / 28 + 1 = (rest.length / 28 + 1) + 1 := by
    rw [List.length_append, hlen]
    omega
  show handleRequestsLoop ((hdr ++ rest).length / 28 + 1) file _ = _
  rw [hk]
  show (match handleRequest file ⟨hdr ++ rest, out, a⟩ with
    | .ret r => r
    | .next c1 => handleRequestsLoop (rest.length / 28 + 1) file c1) = _
  rw [h]
  rfl

/-- One pass of the loop on a request header the client encoded: the header
is consumed and the command is dispatched on its type. -/
theorem handleRequest_requestBytes (file : Node) (t h o l : Nat) (rest out : List Nat)
    (a : Bool) :
    handleRequest file ⟨requestBytes t h o l ++ rest, out, a⟩ =
      if t % 2 ^ 32 = NBD_CMD_READ then
        match handleRead file (h % 2 ^ 64) (o % 2 ^ 64) (l % 2 ^ 32) ⟨rest, out, a⟩ with
        | .err e c2 => .ret (.err e c2)
        | .ok _ c2 => .next c2
      else if t % 2 ^ 32 = NBD_CMD_DISC then .ret (.ok () ⟨rest, out, a⟩)
      else
        match sendReply (h % 2 ^ 64) 1 ⟨rest, out, a⟩ with
        | .err _ c2 => .next c2
        | .ok _ c2 => .next c2 := by
  unfold handleRequest
  rw [readRequest_requestBytes]
  simp

theorem connWrite_inp {bs : List Nat} {c c1 : Conn} {u : Unit}
    (h : connWrite bs c = .ok u c1) : c1.inp = c.inp := by
  unfold connWrite at h
  split at h
  · injection h with _ h2
    rw [← h2]
  · cases h

theorem connWrite_err {bs : List Nat} {c c1 : Conn} {e : Err}
    (h : connWrite bs c = .err e c1) : e = .writeFailed ∧ c1.inp = c.inp := by
  unfold connWrite at h
  split at h
  · cases h
  · injection h with h1 h2
    rw [← h1, ← h2]
    exact ⟨rfl, rfl⟩

theorem binaryWrite_inp {v : GoValue} {c c1 : Conn} {u : Unit}
    (h : binaryWrite v c = .ok u c1) : c1.inp = c.inp := by
  unfold binaryWrite at h
  cases he : encode v with
  | none =>
    rw [he] at h
    cases h
  | some bs =>
    rw [he] at h
    exact connWrite_inp h

theorem binaryWrite_err {v : GoValue} {c c1 : Conn} {e : Err}
    (h : binaryWrite v c = .err e c1) : e ≠ .fuel ∧ c1.inp = c.inp := by
  unfold binaryWrite at h
  cases he : encode v with
  | none =>
    rw [he] at h
    injection h with h1 h2
    rw [← h1, ← h2]
    exact ⟨by decide, rfl⟩
  | some bs =>
    rw [he] at h
    obtain ⟨h1, h2⟩ := connWrite_err h
    rw [h1]
    exact ⟨by decide, h2⟩

theorem handleRead_inp {file : Node} {h o l : Nat} {c c1 : Conn} {u : Unit}
    (hr : handleRead file h o l c = .ok u c1) : c1.inp = c.inp := by
  unfold handleRead at hr
  simp only at hr
  split at hr
  · exact binaryWrite_inp hr
  · rw [bind_apply] at hr
    split at hr
    · next c2 h1 =>
      rw [connWrite_inp hr]
      exact binaryWrite_inp h1
    · cases hr

theorem handleRead_err {file : Node} {h o l : Nat} {c c1 : Conn} {e : Err}
    (hr : handleRead file h o l c = .err e c1) : e ≠ .fuel := by
  unfold handleRead at hr
  simp only at hr
  split at hr
  · exact (binaryWrite_err hr).1
  · rw [bind_apply] at hr
    split at hr
    · rw [(connWrite_err hr).1]
      decide
    · next e1 c2 h1 =>
      injection hr with h2 _
      rw [← h2]
      exact (binaryWrite_err h1).1

theorem ReadFull_ok_length {n : Nat} {c c1 : Conn} {bs : List Nat}
    (h : ReadFull n c = .ok bs c1) : c1.inp.length + n = c.inp.length := by
  unfold ReadFull at h
  split at h
  · next hn =>
    injection h with _ h2
    rw [← h2, hn]
    rfl
  · split at h
    · cases h
    · split at h
      · cases h
      · next hlt =>
        injection h with _ h2
        rw [← h2]
        simp only [List.length_drop]
        omega

theorem ReadFull_err {n : Nat} {c c1 : Conn} {e : Err}
    (h : ReadFull n c = .err e c1) : e ≠ .fuel := by
  unfold ReadFull at h
  split at h
  · cases h
  · split at h
    · injection h with h1 _
      rw [← h1]
      decide
    · split at h
      · injection h with h1 _
        rw [← h1]
        decide
      · cases h

/-- A pass of the loop that goes round again has consumed 28 bytes of
input. -/
theorem handleRequest_next_length {file : Node} {c c1 : Conn}
    (h : handleRequest file c = .next c1) : c1.inp.length + 28 = c.inp.length := by
  unfold handleRequest readRequest at h
  rw [bind_apply] at h
  cases hrf : ReadFull 28 c with
  | err e c2 =>
    rw [hrf] at h
    simp only at h
    split at h <;> cases h
  | ok bs c2 =>
    rw [hrf] at h
    simp only [pure_apply] at h
    have hl := ReadFull_ok_length hrf
    split at h
    · cases h
    · split at h
      · split at h
        · cases h
        · next u c3 hr =>
          injection h with h1
          rw [← h1, handleRead_inp hr]
          exact hl
      · split at h
        · cases h
        · split at h
          · next e c3 hs =>
            injection h with h1
            rw [← h1, (binaryWrite_err hs).2]
            exact hl
          · next u c3 hs =>
            injection h with h1
            rw [← h1, binaryWrite_inp hs]
            exact hl

/-- A pass of the loop never returns the error of the loop model. -/
theorem handleRequest_ret_ne_fuel {file : Node} {c c1 : Conn}
    (h : handleRequest file c = .ret (.err .fuel c1)) : False := by
  unfold handleRequest readRequest at h
  rw [bind_apply] at h
  cases hrf : ReadFull 28 c with
  | err e c2 =>
    rw [hrf] at h
    simp only at h
    split at h
    · cases h
    · injection h with h1
      injection h1 with h2 _
      exact ReadFull_err hrf h2
  | ok bs c2 =>
    rw [hrf] at h
    simp only [pure_apply] at h
    split at h
    · cases h
    · split at h
      · split at h
        · next e c3 hr =>
          injection h with h1
          injection h1 with h2 _
          exact handleRead_err hr h2
        · cases h
      · split at h
        · cases h
        · split at h <;> cases h

theorem handleRequestsLoop_total (k : Nat) (file : Node) (c c1 : Conn)
    (hk : c.inp.length < 28 * k) : handleRequestsLoop k file c ≠ .err .fuel c1 := by
  induction k generalizing c with
  | zero => omega
  | succ k ih =>
    unfold handleRequestsLoop
    cases hs : handleRequest file c with
    | ret r =>
      simp only
      intro hr
      rw [hr] at hs
      exact handleRequest_ret_ne_fuel hs
    | next c2 =>
      simp only
      apply ih
      have := handleRequest_next_length hs
      omega

/-- The loop of `handleRequests` always comes to its own end: the bound on
the number of passes is never what stops it. -/
theorem handleRequests_total (file : Node) (c c1 : Conn) :
    handleRequests file c ≠ .err .fuel c1 := by
  apply handleRequestsLoop_total
  have := Nat.lt_div_mul_add (a := c.inp.length) (b := 28) (by decide)
  omega

/-! ## Transmission phase: the claims -/

/-- C1: a read request whose range `o .. o + l` lies within the backing file
`F` makes one pass of the loop of `handleRequests` write exactly the 16-byte
reply header (reply magic, error code 0, the handle `h` of the request)
followed by the `l` bytes of `F` from offset `o`, consume exactly the request
header, and go round again for the next request. -/
theorem read_within_bounds (F : List Nat) (h o l : Nat) (rest out : List Nat)
    (hh : h < 2 ^ 64) (hl : l < 2 ^ 32) (hF : F.length < 2 ^ 63) (hb : o + l ≤ F.length) :
    handleRequest (.file F) ⟨requestBytes NBD_CMD_READ h o l ++ rest, out, true⟩ =
        .next ⟨rest, out ++ replyBytes 0 h ++ (F.drop o).take l, true⟩ ∧
      handleRequests (.file F) ⟨requestBytes NBD_CMD_READ h o l ++ rest, out, true⟩ =
        handleRequests (.file F) ⟨rest, out ++ replyBytes 0 h ++ (F.drop o).take l, true⟩ ∧
      replyBytes 0 h = [0x67, 0x44, 0x66, 0x98, 0, 0, 0, 0] ++ bigEndian 8 h ∧
      ((F.drop o).take l).length = l ∧
      ∀ k, k < l → ((F.drop o).take l)[k]? = F[o + k]? := by
  have ho : o + l < 2 ^ 63 := by omega
  have h1 : h % 2 ^ 64 = h := Nat.mod_eq_of_lt hh
  have h2 : o % 2 ^ 64 = o := Nat.mod_eq_of_lt (by omega)
  have h3 : l % 2 ^ 32 = l := Nat.mod_eq_of_lt hl
  have hstep : handleRequest (.file F) ⟨requestBytes NBD_CMD_READ h o l ++ rest, out, true⟩ =
      .next ⟨rest, out ++ replyBytes 0 h ++ (F.drop o).take l, true⟩ := by
    rw [handleRequest_requestBytes, h1, h2, h3, handleRead_file F h o l rest out ho]
    rfl
  refine ⟨hstep, handleRequests_next (requestBytes_length _ _ _ _) hstep, rfl, ?_, ?_⟩
  · rw [List.length_take, List.length_drop]
    omega
  · intro k hk
    rw [List.getElem?_take_of_lt hk, List.getElem?_drop]

/-- C1 at the image of 4096 bytes: a read of 256 bytes at offset 512 with
handle 7. -/
theorem read_within_bounds_witness :
    (7 < 2 ^ 64 ∧ 256 < 2 ^ 32 ∧ diskIso.length < 2 ^ 63 ∧ 512 + 256 ≤ diskIso.length) ∧
    (handleRequest (.file diskIso) ⟨requestBytes NBD_CMD_READ 7 512 256 ++ [], [], true⟩ =
        .next ⟨[], [] ++ replyBytes 0 7 ++ (diskIso.drop 512).take 256, true⟩ ∧
      handleRequests (.file diskIso) ⟨requestBytes NBD_CMD_READ 7 512 256 ++ [], [], true⟩ =
        handleRequests (.file diskIso)
          ⟨[], [] ++ replyBytes 0 7 ++ (diskIso.drop 512).take 256, true⟩ ∧
      replyBytes 0 7 = [0x67, 0x44, 0x66, 0x98, 0, 0, 0, 0] ++ bigEndian 8 7 ∧
      ((diskIso.drop 512).take 256).length = 256 ∧
      ∀ k, k < 256 → ((diskIso.drop 512).take 256)[k]? = diskIso[512 + k]?) :=
  have h3 : diskIso.length < 2 ^ 63 := by simp [diskIso]
  have h4 : 512 + 256 ≤ diskIso.length := by simp [diskIso]
  ⟨⟨by decide, by decide, h3, h4⟩,
    read_within_bounds diskIso 7 512 256 [] [] (by decide) (by decide) h3 h4⟩

/-- C7: a request header with the request magic and a command type other
than read (0) and disconnect (2) makes one pass of the loop of
`handleRequests` write exactly one 16-byte reply (reply magic, error code 1,
the handle `h` of the request) and no payload, consume exactly the request
header, and go round again for the next request. -/
theorem unsupported_command (file : Node) (t h o l : Nat) (rest out : List Nat)
    (ht : t < 2 ^ 32) (hh : h < 2 ^ 64) (h0 : t ≠ NBD_CMD_READ) (h2 : t ≠ NBD_CMD_DISC) :
    handleRequest file ⟨requestBytes t h o l ++ rest, out, true⟩ =
        .next ⟨rest, out ++ replyBytes 1 h, true⟩ ∧
      handleRequests file ⟨requestBytes t h o l ++ rest, out, true⟩ =
        handleRequests file ⟨rest, out ++ replyBytes 1 h, true⟩ ∧
      (replyBytes 1 h).length = 16 := by
  have h1 : h % 2 ^ 64 = h := Nat.mod_eq_of_lt hh
  have h3 : t % 2 ^ 32 = t := Nat.mod_eq_of_lt ht
  have hstep : handleRequest file ⟨requestBytes t h o l ++ rest, out, true⟩ =
      .next ⟨rest, out ++ replyBytes 1 h, true⟩ := by
    rw [handleRequest_requestBytes, h1, h3, if_neg h0, if_neg h2, sendReply_accepts]
  exact ⟨hstep, handleRequests_next (requestBytes_length _ _ _ _) hstep, replyBytes_length 1 h⟩

/-- C7 at the command type 1 (write) with handle 8. -/
theorem unsupported_command_witness :
    (1 < 2 ^ 32 ∧ 8 < 2 ^ 64 ∧ 1 ≠ NBD_CMD_READ ∧ 1 ≠ NBD_CMD_DISC) ∧
    (handleRequest (.file diskIso) ⟨requestBytes 1 8 0 512 ++ [], [], true⟩ =
        .next ⟨[], [] ++ replyBytes 1 8, true⟩ ∧
      handleRequests (.file diskIso) ⟨requestBytes 1 8 0 512 ++ [], [], true⟩ =
        handleRequests (.file diskIso) ⟨[], [] ++ replyBytes 1 8, true⟩ ∧
      (replyBytes 1 8).length = 16) :=
  ⟨⟨by decide, by decide, by decide, by decide⟩,
    unsupported_command (.file diskIso) 1 8 0 512 [] []
      (by decide) (by decide) (by decide) (by decide)⟩

/-- C8: a request header with the request magic and command type disconnect
(2) makes `handleRequests` return without error, whatever the handle, offset
and length: nothing is written to the connection and the input after the
header is left unread. -/
theorem disconnect_returns (file : Node) (h o l : Nat) (rest out : List Nat) (a : Bool) :
    handleRequest file ⟨requestBytes NBD_CMD_DISC h o l ++ rest, out, a⟩ =
        .ret (.ok () ⟨rest, out, a⟩) ∧
      handleRequests file ⟨requestBytes NBD_CMD_DISC h o l ++ rest, out, a⟩ =
        .ok () ⟨rest, out, a⟩ := by
  have hstep : handleRequest file ⟨requestBytes NBD_CMD_DISC h o l ++ rest, out, a⟩ =
      .ret (.ok () ⟨rest, out, a⟩) := by
    rw [handleRequest_requestBytes]
    rfl
  exact ⟨hstep, handleRequests_ret hstep⟩

/-! ## Lemmas on the handshake -/

theorem ReadFull_append (bs rest out : List Nat) (a : Bool) :
    ReadFull bs.length ⟨bs ++ rest, out, a⟩ = .ok bs ⟨rest, out, a⟩ := by
  unfold ReadFull
  cases bs with
  | nil => rfl
  | cons b bs =>
    have h1 : ¬ ((b :: bs).length = 0) := by simp
    have h2 : ¬ ((b :: bs ++ rest).length < (b :: bs).length) := by simp
    simp only [h1, if_false, List.cons_append, reduceCtorEq]
    rw [← List.cons_append, List.take_left, List.drop_left, if_neg h2]

theorem binaryRead_bigEndian (n v : Nat) (rest out : List Nat) (a : Bool) :
    binaryRead n ⟨bigEndian n v ++ rest, out, a⟩ = .ok (v % 256 ^ n) ⟨rest, out, a⟩ := by
  have h := ReadFull_append (bigEndian n v) rest out a
  rw [bigEndian_length] at h
  unfold binaryRead
  rw [bind_ok _ h, pure_apply, fromBigEndian_bigEndian]

theorem binaryWrite_uint16 (v : Nat) (i out : List Nat) :
    binaryWrite (.scalar .uint16 v) ⟨i, out, true⟩ = .ok () ⟨i, out ++ bigEndian 2 v, true⟩ := by
  simp [binaryWrite, encode, encodeFields, sizeof, connWrite]

theorem binaryWrite_uint32 (v : Nat) (i out : List Nat) :
    binaryWrite (.scalar .uint32 v) ⟨i, out, true⟩ = .ok () ⟨i, out ++ bigEndian 4 v, true⟩ := by
  simp [binaryWrite, encode, encodeFields, sizeof, connWrite]

theorem binaryWrite_uint64 (v : Nat) (i out : List Nat) :
    binaryWrite (.scalar .uint64 v) ⟨i, out, true⟩ = .ok () ⟨i, out ++ bigEndian 8 v, true⟩ := by
  simp [binaryWrite, encode, encodeFields, sizeof, connWrite]

/-- The function `binary.Write` rejects an `int`, whatever its value, and
leaves the connection as it was. -/
theorem binaryWrite_int (v : Nat) (c : Conn) :
    binaryWrite (.scalar .int v) c = .err .notFixedSize c := rfl

/-- The greeting fails at its first `binary.Write`. -/
theorem negotiateGreeting_fails (c : Conn) : negotiateGreeting c = .err .notFixedSize c := rfl

/-- What lines 121-178 do on the bytes of a client: without a file-system
entry at the joined path the error "ISO not found" and no output, with one
the success response for its size. -/
theorem negotiateExport_optionBytes (isoDir : List Nat) (fs : FS) (cf t : Nat)
    (name rest out : List Nat) (hlen : name.length < 2 ^ 32) :
    negotiateExport isoDir fs ⟨optionBytes cf t name ++ rest, out, true⟩ =
      match fs (Join [isoDir, name]) with
      | none => .err .isoNotFound ⟨rest, out, true⟩
      | some stat =>
        .ok (Join [isoDir, name], stat.Size) ⟨rest, out ++ successBytes stat.Size, true⟩ := by
  have hmagic : OPTS_MAGIC % 256 ^ 8 = OPTS_MAGIC := by decide
  have hl : name.length % 256 ^ 4 = name.length := Nat.mod_eq_of_lt (by norm_num; omega)
  unfold negotiateExport optionBytes
  simp only [List.append_assoc]
  rw [bind_ok _ (binaryRead_bigEndian 4 cf _ out true)]
  rw [bind_ok _ (binaryRead_bigEndian 8 OPTS_MAGIC _ out true)]
  rw [hmagic]
  simp only [ne_eq, not_true_eq_false, if_false]
  rw [bind_ok _ (binaryRead_bigEndian 4 t _ out true)]
  rw [bind_ok _ (binaryRead_bigEndian 4 name.length _ out true)]
  rw [hl]
  rw [bind_ok _ (ReadFull_append name rest out true)]
  cases hst : fs (Join [isoDir, name]) with
  | none => rfl
  | some stat =>
    simp only
    rw [bind_ok _ (binaryWrite_uint64 _ _ _)]
    rw [bind_ok _ (binaryWrite_uint32 _ _ _)]
    rw [bind_ok _ (binaryWrite_uint32 _ _ _)]
    rw [bind_ok _ (binaryWrite_uint32 _ _ _)]
    rw [bind_ok _ (binaryWrite_uint64 _ _ _)]
    rw [bind_ok _ (binaryWrite_uint16 _ _ _)]
    simp [pure_apply, successBytes]

/-! ## Lemmas on paths -/

theorem splitSlash_ne_nil (xs : List Nat) : splitSlash xs ≠ [] := by
  cases xs with
  | nil => simp [splitSlash]
  | cons b bs =>
    unfold splitSlash
    split
    · simp
    · split <;> simp

theorem splitSlash_append_slash (xs ys : List Nat) :
    splitSlash (xs ++ slash :: ys) = splitSlash xs ++ splitSlash ys := by
  induction xs with
  | nil => simp [splitSlash]
  | cons b bs ih =>
    by_cases hb : b = slash
    · simp [splitSlash, hb, ih]
    · have h1 : splitSlash (b :: (bs ++ slash :: ys)) =
          match splitSlash (bs ++ slash :: ys) with
          | [] => [[b]]
          | e :: es => (b :: e) :: es := by
        simp [splitSlash, hb]
      have h2 : splitSlash (b :: bs) =
          match splitSlash bs with
          | [] => [[b]]
          | e :: es => (b :: e) :: es := by
        simp [splitSlash, hb]
      rw [List.cons_append, h1, h2, ih]
      cases hs : splitSlash bs with
      | nil => exact absurd hs (splitSlash_ne_nil bs)
      | cons e es => rfl

theorem splitSlash_of_no_slash (e : List Nat) (h : slash ∉ e) : splitSlash e = [e] := by
  induction e with
  | nil => rfl
  | cons b bs ih =>
    have hb : b ≠ slash := fun hb => h (by simp [hb])
    have hbs : slash ∉ bs := fun hm => h (List.mem_cons_of_mem _ hm)
    simp [splitSlash, hb, ih hbs]

theorem no_slash_of_mem_splitSlash (xs e : List Nat) (h : e ∈ splitSlash xs) : slash ∉ e := by
  induction xs generalizing e with
  | nil =>
    simp [splitSlash] at h
    simp [h]
  | cons b bs ih =>
    by_cases hb : b = slash
    · simp only [splitSlash, hb, if_true, List.mem_cons] at h
      rcases h with h | h
      · simp [h]
      · exact ih e h
    · have h2 : splitSlash (b :: bs) =
          match splitSlash bs with
          | [] => [[b]]
          | e :: es => (b :: e) :: es := by
        simp [splitSlash, hb]
      rw [h2] at h
      cases hs : splitSlash bs with
      | nil => exact absurd hs (splitSlash_ne_nil bs)
      | cons e1 es =>
        rw [hs] at h
        simp only [List.mem_cons] at h
        rcases h with h | h
        · rw [h]
          intro hm
          rcases List.mem_cons.mp hm with hm | hm
          · exact hb hm.symm
          · exact ih e1 (by simp [hs]) hm
        · exact ih e (by simp [hs, h])

theorem splitSlash_joinSlash (L : List (List Nat)) (hne : L ≠ [])
    (h : ∀ e ∈ L, slash ∉ e) : splitSlash (joinSlash L) = L := by
  induction L with
  | nil => exact absurd rfl hne
  | cons e es ih =>
    cases es with
    | nil => exact splitSlash_of_no_slash e (h e (by simp))
    | cons e1 es1 =>
      have hj : joinSlash (e :: e1 :: es1) = e ++ slash :: joinSlash (e1 :: es1) := rfl
      rw [hj, splitSlash_append_slash, splitSlash_of_no_slash e (h e (by simp)),
        ih (by simp) (fun x hx => h x (List.mem_cons_of_mem _ hx))]
      rfl

theorem cleanStep_kept (rooted : Bool) (st : List (List Nat)) (e : List Nat)
    (hst : ∀ x ∈ st, Kept x) (he : slash ∉ e) : ∀ x ∈ cleanStep rooted st e, Kept x := by
  have hdd : Kept dotdot := by
    refine ⟨by decide, by decide, by decide⟩
  unfold cleanStep
  split
  · exact hst
  · next h1 =>
    have h1a : e ≠ [] := fun h => h1 (Or.inl h)
    have h1b : e ≠ dot := fun h => h1 (Or.inr h)
    split
    · split
      · next top below =>
        split
        · intro x hx
          rcases List.mem_cons.mp hx with hx | hx
          · rw [hx]
            exact hdd
          · exact hst x hx
        · intro x hx
          exact hst x (List.mem_cons_of_mem _ hx)
      · split
        · intro x hx
          cases hx
        · intro x hx
          rw [List.mem_singleton.mp hx]
          exact hdd
    · intro x hx
      rcases List.mem_cons.mp hx with hx | hx
      · rw [hx]
        exact ⟨h1a, h1b, he⟩
      · exact hst x hx

theorem foldl_cleanStep_kept (rooted : Bool) (es : List (List Nat)) (st : List (List Nat))
    (hst : ∀ x ∈ st, Kept x) (hes : ∀ e ∈ es, slash ∉ e) :
    ∀ x ∈ es.foldl (cleanStep rooted) st, Kept x := by
  induction es generalizing st with
  | nil => exact hst
  | cons e es ih =>
    rw [List.foldl_cons]
    exact ih _ (cleanStep_kept rooted st e hst (hes e (by simp)))
      (fun x hx => hes x (List.mem_cons_of_mem _ hx))

theorem cleanStack_kept (path : List Nat) : ∀ x ∈ cleanStack path, Kept x :=
  foldl_cleanStep_kept _ _ [] (fun _ hx => by cases hx)
    (fun e he => no_slash_of_mem_splitSlash path e he)

/-- Elements none of which is `..` are only ever added to what is kept. -/
theorem foldl_cleanStep_no_dotdot (rooted : Bool) (es : List (List Nat))
    (st : List (List Nat)) (h : dotdot ∉ es) :
    es.foldl (cleanStep rooted) st =
      (es.filter (fun e => e ≠ [] ∧ e ≠ dot)).reverse ++ st := by
  induction es generalizing st with
  | nil => rfl
  | cons e es ih =>
    have he : e ≠ dotdot := fun he => h (by simp [he])
    have hes : dotdot ∉ es := fun hm => h (List.mem_cons_of_mem _ hm)
    rw [List.foldl_cons, ih _ hes]
    by_cases hk : e = [] ∨ e = dot
    · have hk2 : ¬ (e ≠ [] ∧ e ≠ dot) := by tauto
      simp [cleanStep, hk, List.filter_cons, hk2]
    · have hk2 : e ≠ [] ∧ e ≠ dot := by tauto
      simp [cleanStep, hk, he, List.filter_cons, hk2]

theorem joinSlash_eq_nil (L : List (List Nat)) (h : ∀ e ∈ L, Kept e)
    (hj : joinSlash L = []) : L = [] := by
  cases L with
  | nil => rfl
  | cons e es =>
    have he := (h e (by simp)).1
    cases es with
    | nil => exact absurd hj he
    | cons e1 es1 =>
      have hj2 : e ++ slash :: joinSlash (e1 :: es1) = [] := hj
      simp at hj2

theorem pathElems_joinSlash (L : List (List Nat)) (h : ∀ e ∈ L, Kept e) :
    pathElems (joinSlash L) = L := by
  cases L with
  | nil => decide
  | cons e es =>
    unfold pathElems
    rw [splitSlash_joinSlash _ (by simp) (fun x hx => (h x hx).2.2)]
    apply List.filter_eq_self.mpr
    intro x hx
    have := h x hx
    simp [this.1, this.2.1]

theorem pathElems_slash_cons (xs : List Nat) : pathElems (slash :: xs) = pathElems xs := by
  simp [pathElems, splitSlash, List.filter_cons]

theorem head_joinSlash (L : List (List Nat)) (h : ∀ e ∈ L, Kept e) :
    (joinSlash L).head? ≠ some slash := by
  cases L with
  | nil => simp [joinSlash]
  | cons e es =>
    have he := h e (by simp)
    cases e with
    | nil => exact absurd rfl he.1
    | cons b bs =>
      have hb : b ≠ slash := fun hb => he.2.2 (by simp [hb])
      cases es with
      | nil => simpa [joinSlash] using hb
      | cons e1 es1 =>
        have hj : joinSlash ((b :: bs) :: e1 :: es1) =
            b :: (bs ++ slash :: joinSlash (e1 :: es1)) := rfl
        rw [hj]
        simpa using hb

/-- The elements of a cleaned path are the elements `filepath.Clean` kept. -/
theorem pathElems_Clean (path : List Nat) (hne : path ≠ []) :
    pathElems (Clean path) = (cleanStack path).reverse := by
  have hk : ∀ e ∈ (cleanStack path).reverse, Kept e := fun e he =>
    cleanStack_kept path e (List.mem_reverse.mp he)
  unfold Clean
  rw [if_neg hne]
  simp only
  split
  · rw [pathElems_slash_cons, pathElems_joinSlash _ hk]
  · split
    · next hb =>
      rw [joinSlash_eq_nil _ hk hb]
      decide
    · exact pathElems_joinSlash _ hk

/-- A cleaned path starts with a slash exactly when the path does. -/
theorem head_Clean (path : List Nat) (hne : path ≠ []) :
    (Clean path).head? = some slash ↔ path.head? = some slash := by
  have hk : ∀ e ∈ (cleanStack path).reverse, Kept e := fun e he =>
    cleanStack_kept path e (List.mem_reverse.mp he)
  unfold Clean
  rw [if_neg hne]
  simp only
  split
  · next h => simp [h]
  · next h =>
    split
    · simp only [h, iff_false]
      decide
    · simp only [h, iff_false]
      exact head_joinSlash _ hk

/-- Joining a directory with a name none of whose elements is `..` cleans to
the elements of the directory followed by those of the name. -/
theorem cleanStack_join (root name : List Nat) (hroot : root ≠ [])
    (hname : dotdot ∉ splitSlash name) :
    cleanStack (root ++ slash :: name) =
      ((splitSlash name).filter (fun e => e ≠ [] ∧ e ≠ dot)).reverse ++ cleanStack root := by
  have hhead : (root ++ slash :: name).head? = root.head? := by
    cases root with
    | nil => exact absurd rfl hroot
    | cons b bs => rfl
  unfold cleanStack
  rw [hhead, splitSlash_append_slash, List.foldl_append, foldl_cleanStep_no_dotdot _ _ _ hname]

/-- A name none of whose elements is `..` joins to a path beneath the
directory. -/
theorem beneath_Join (root name : List Nat) (hroot : root ≠ [])
    (hname : dotdot ∉ splitSlash name) : beneath root (Join [root, name]) := by
  have hj : Join [root, name] = Clean (root ++ slash :: name) := by
    simp [Join, hroot, joinSlash]
  have hne : root ++ slash :: name ≠ [] := by simp
  have hhead : (root ++ slash :: name).head? = root.head? := by
    cases root with
    | nil => exact absurd rfl hroot
    | cons b bs => rfl
  rw [hj]
  unfold beneath
  rw [pathElems_Clean _ hne, pathElems_Clean _ hroot, cleanStack_join root name hroot hname,
    head_Clean _ hne, hhead]
  refine ⟨Iff.rfl, ?_, ?_⟩
  · rw [List.reverse_append, List.reverse_reverse]
    exact List.prefix_append _ _
  · rw [List.reverse_append, List.reverse_reverse, List.drop_left]
    intro hm
    exact hname (List.mem_filter.mp hm).1

theorem successBytes_length (n : Nat) : (successBytes n).length = 30 := by
  simp [successBytes, bigEndian_length]

/-- The code after the greeting on the export name `disk.iso`, whatever the
client flags and the option type. -/
theorem negotiateExport_disk_iso (cf t : Nat) :
    negotiateExport (bytesOf "/srv/isos") exampleFS
        ⟨optionBytes cf t (bytesOf "disk.iso"), [], true⟩ =
      .ok (bytesOf "/srv/isos/disk.iso", 4096) ⟨[], successBytes 4096, true⟩ := by
  have h := negotiateExport_optionBytes (bytesOf "/srv/isos") exampleFS cf t
    (bytesOf "disk.iso") [] [] (by decide)
  have hfs : exampleFS (Join [bytesOf "/srv/isos", bytesOf "disk.iso"]) =
      some (.file diskIso) := by rfl
  have hp : Join [bytesOf "/srv/isos", bytesOf "disk.iso"] = bytesOf "/srv/isos/disk.iso" := by
    decide
  rw [hfs, hp] at h
  simpa [Node.Size, diskIso] using h

/-! ## Handshake: the claims

`negotiateConnection` fails at its first `binary.Write` on every input (C3,
C4), so it never completes a handshake: what is claimed of the names it
refuses holds of every name (C5, C6), and what is claimed of its success
response holds of no run at all (C9, C10). The lemmas on `negotiateExport`
tell what lines 121-178 would do with the bytes of a client. -/

/-- C3: the code does not send the greeting. `INIT_PASSWD` reaches
`binary.Write` as an `int`, which has no fixed size, so the first of the three
writes fails and `negotiateConnection` returns that error on every
connection, having written nothing and read nothing. -/
theorem greeting_not_sent (isoDir : List Nat) (fs : FS) (c : Conn) :
    negotiateGreeting c = .err .notFixedSize c ∧
      negotiateConnection isoDir fs c = .err .notFixedSize c :=
  ⟨rfl, rfl⟩

/-- C4: for the export `disk.iso` of 4096 bytes `negotiateConnection` does not
succeed: it returns the error of the first `binary.Write` and writes nothing.
The code after the greeting, run on the same bytes, reports the size 4096. -/
theorem disk_iso_not_negotiated :
    negotiateConnection (bytesOf "/srv/isos") exampleFS
        ⟨optionBytes 0 NBD_OPT_EXPORT (bytesOf "disk.iso"), [], true⟩ =
      .err .notFixedSize ⟨optionBytes 0 NBD_OPT_EXPORT (bytesOf "disk.iso"), [], true⟩ ∧
    negotiateExport (bytesOf "/srv/isos") exampleFS
        ⟨optionBytes 0 NBD_OPT_EXPORT (bytesOf "disk.iso"), [], true⟩ =
      .ok (bytesOf "/srv/isos/disk.iso", 4096) ⟨[], successBytes 4096, true⟩ :=
  ⟨rfl, negotiateExport_disk_iso 0 NBD_OPT_EXPORT⟩

/-- Lines 121-178 run on their own make no containment check: for the
directory `/srv/isos` and the name `../secret.img` they return
`/srv/secret.img`, which is not beneath `/srv/isos`. -/
theorem negotiateExport_traversal :
    negotiateExport (bytesOf "/srv/isos") exampleFS
        ⟨optionBytes 0 NBD_OPT_EXPORT (bytesOf "../secret.img"), [], true⟩ =
      .ok (bytesOf "/srv/secret.img", 3) ⟨[], successBytes 3, true⟩ ∧
    ¬ beneath (bytesOf "/srv/isos") (bytesOf "/srv/secret.img") := by
  refine ⟨?_, by decide⟩
  have h := negotiateExport_optionBytes (bytesOf "/srv/isos") exampleFS 0 NBD_OPT_EXPORT
    (bytesOf "../secret.img") [] [] (by decide)
  have hfs : exampleFS (Join [bytesOf "/srv/isos", bytesOf "../secret.img"]) =
      some (.file [1, 2, 3]) := by rfl
  have hp : Join [bytesOf "/srv/isos", bytesOf "../secret.img"] =
      bytesOf "/srv/secret.img" := by decide
  rw [hfs, hp] at h
  simpa [Node.Size] using h

/-- Lines 121-178 run on their own do not ask whether the path is a regular
file: for the empty name they return the export directory itself. -/
theorem negotiateExport_directory :
    negotiateExport (bytesOf "/srv/isos") exampleFS
        ⟨optionBytes 0 NBD_OPT_EXPORT [], [], true⟩ =
      .ok (bytesOf "/srv/isos", 4096) ⟨[], successBytes 4096, true⟩ := by
  have h := negotiateExport_optionBytes (bytesOf "/srv/isos") exampleFS 0 NBD_OPT_EXPORT
    [] [] [] (by decide)
  have hfs : exampleFS (Join [bytesOf "/srv/isos", []]) = some (.dir 4096) := by rfl
  have hp : Join [bytesOf "/srv/isos", []] = bytesOf "/srv/isos" := by decide
  rw [hfs, hp] at h
  simpa [Node.Size] using h

/-- C5: when the join of the export directory and the export name the client
sends does not lie beneath the directory, `negotiateConnection` fails and
writes no success response: the connection holds what it held before, also
when `handleClient` returns. Every path `negotiateConnection` returns on
success is beneath the directory. This holds because the function fails at
its first `binary.Write` whatever the name is; it makes no containment check
of its own. -/
theorem escaping_name_refused (isoDir : List Nat) (fs : FS) (cf t : Nat)
    (name rest out : List Nat) (a : Bool)
    (_hesc : ¬ beneath isoDir (Join [isoDir, name])) :
    negotiateConnection isoDir fs ⟨optionBytes cf t name ++ rest, out, a⟩ =
        .err .notFixedSize ⟨optionBytes cf t name ++ rest, out, a⟩ ∧
      (handleClient isoDir fs ⟨optionBytes cf t name ++ rest, out, a⟩).out = out ∧
      (match negotiateConnection isoDir fs ⟨optionBytes cf t name ++ rest, out, a⟩ with
        | .ok (p, _) _ => beneath isoDir p
        | .err _ c1 => c1.out = out) :=
  ⟨rfl, rfl, rfl⟩

/-- C5 at the export name `../secret.img` for the directory `/srv/isos`. -/
theorem escaping_name_refused_witness :
    ¬ beneath (bytesOf "/srv/isos") (Join [bytesOf "/srv/isos", bytesOf "../secret.img"]) ∧
    (negotiateConnection (bytesOf "/srv/isos") exampleFS
          ⟨optionBytes 0 NBD_OPT_EXPORT (bytesOf "../secret.img") ++ [], [], true⟩ =
        .err .notFixedSize
          ⟨optionBytes 0 NBD_OPT_EXPORT (bytesOf "../secret.img") ++ [], [], true⟩ ∧
      (handleClient (bytesOf "/srv/isos") exampleFS
          ⟨optionBytes 0 NBD_OPT_EXPORT (bytesOf "../secret.img") ++ [], [], true⟩).out = [] ∧
      (match negotiateConnection (bytesOf "/srv/isos") exampleFS
          ⟨optionBytes 0 NBD_OPT_EXPORT (bytesOf "../secret.img") ++ [], [], true⟩ with
        | .ok (p, _) _ => beneath (bytesOf "/srv/isos") p
        | .err _ c1 => c1.out = [])) :=
  ⟨by decide,
    escaping_name_refused (bytesOf "/srv/isos") exampleFS 0 NBD_OPT_EXPORT
      (bytesOf "../secret.img") [] [] true (by decide)⟩

/-- C6: when the path the export name resolves to is missing or is not a
regular file, `negotiateConnection` returns an error and neither it nor
`handleClient` writes a byte of a success response or of the transmission
phase: the connection holds what it held before. This holds because the
function fails at its first `binary.Write` whatever the path refers to; it
never asks whether the path is a regular file. -/
theorem non_file_export_refused (isoDir : List Nat) (fs : FS) (cf t : Nat)
    (name rest out : List Nat) (a : Bool)
    (_hnot : ∀ content, fs (Join [isoDir, name]) ≠ some (.file content)) :
    negotiateConnection isoDir fs ⟨optionBytes cf t name ++ rest, out, a⟩ =
        .err .notFixedSize ⟨optionBytes cf t name ++ rest, out, a⟩ ∧
      (handleClient isoDir fs ⟨optionBytes cf t name ++ rest, out, a⟩).out = out :=
  ⟨rfl, rfl⟩

/-- C6 at the export name `missing.iso`, which is not in `/srv/isos`, and at
the empty export name, which is the directory `/srv/isos` itself. -/
theorem non_file_export_refused_witness :
    ((∀ content, exampleFS (Join [bytesOf "/srv/isos", bytesOf "missing.iso"]) ≠
          some (.file content)) ∧
      negotiateConnection (bytesOf "/srv/isos") exampleFS
          ⟨optionBytes 0 NBD_OPT_EXPORT (bytesOf "missing.iso") ++ [], [], true⟩ =
        .err .notFixedSize
          ⟨optionBytes 0 NBD_OPT_EXPORT (bytesOf "missing.iso") ++ [], [], true⟩ ∧
      (handleClient (bytesOf "/srv/isos") exampleFS
          ⟨optionBytes 0 NBD_OPT_EXPORT (bytesOf "missing.iso") ++ [], [], true⟩).out = []) ∧
    ((∀ content, exampleFS (Join [bytesOf "/srv/isos", []]) ≠ some (.file content)) ∧
      negotiateConnection (bytesOf "/srv/isos") exampleFS
          ⟨optionBytes 0 NBD_OPT_EXPORT [] ++ [], [], true⟩ =
        .err .notFixedSize ⟨optionBytes 0 NBD_OPT_EXPORT [] ++ [], [], true⟩ ∧
      (handleClient (bytesOf "/srv/isos") exampleFS
          ⟨optionBytes 0 NBD_OPT_EXPORT [] ++ [], [], true⟩).out = []) :=
  have h1 : ∀ content, exampleFS (Join [bytesOf "/srv/isos", bytesOf "missing.iso"]) ≠
      some (.file content) := by
    intro content h
    have hn : exampleFS (Join [bytesOf "/srv/isos", bytesOf "missing.iso"]) = none := by rfl
    rw [hn] at h
    cases h
  have h2 : ∀ content, exampleFS (Join [bytesOf "/srv/isos", []]) ≠ some (.file content) := by
    intro content h
    have hn : exampleFS (Join [bytesOf "/srv/isos", []]) = some (.dir 4096) := by rfl
    rw [hn] at h
    cases h
  ⟨⟨h1, non_file_export_refused (bytesOf "/srv/isos") exampleFS 0 NBD_OPT_EXPORT
      (bytesOf "missing.iso") [] [] true h1⟩,
    ⟨h2, non_file_export_refused (bytesOf "/srv/isos") exampleFS 0 NBD_OPT_EXPORT
      [] [] [] true h2⟩⟩

end Nbd
